import Mathlib

/-!
Verification of the logger-go structured logging library.

This file gives a shallow embedding of the field-accumulation and
record-rendering engine of the repository (package `logger`, file
`logger.go`, together with the `caller` package constants) and proves or
refutes the frozen claims about it.

Modelling conventions:
* Go `any` values appearing in field maps, contexts and rendered records
  are modelled by the inductive type `GoValue`.
* Go `error` values are modelled by `GoErr`, recording the `Error()`
  string, whether the dynamic type is `*errors.errorString`, whether
  reflection sees a struct after pointer dereference, the behaviour of an
  `Unwrap() error` method, and the exported struct fields reflection
  would enumerate.
* Go maps (`map[string]any`) are modelled by association lists with an
  overwrite-or-append insertion; record claims are stated via `lookupA`.
* `time.Now().Format(time.RFC3339)` is an ambient `now : String`
  parameter; `fmt.Sprintf` is an ambient `sprintf` parameter;
  `json.Marshal` is an ambient `marshal` parameter returning
  `Except String String` (failure carries the error message).
* A renderer panic (a reachable nil-dereference in `DefaultJSONParser`,
  see `walkUnwrap`) is modelled by `Option`: `none` means the call
  panicked and nothing was written to the sink.
* Pointer aliasing of scoped loggers (`innerLogger`) is modelled by a
  heap: a list of `InnerLogger` states indexed by `Nat` references.
-/

namespace LoggerGo

/-- Log levels, `interface.go`: `type LogLevelEnum int` with
`ERROR = 0, WARN = 1, LOG = 2, DEBUG = 3` (iota). -/
abbrev LogLevelEnum := Int

def ERROR : LogLevelEnum := 0

def WARN : LogLevelEnum := 1

def LOG : LogLevelEnum := 2

def DEBUG : LogLevelEnum := 3

/-- `LogLevelEnum.String()` from `interface.go`. -/
def levelString (l : LogLevelEnum) : String :=
  if l = ERROR then "ERROR"
  else if l = WARN then "WARN"
  else if l = LOG then "LOG"
  else if l = DEBUG then "DEBUG"
  else "UNKNOWN"

mutual
/-- Behaviour of a Go error value with respect to the
`interface \x7b Unwrap() error \x7d` capability used by
`DefaultJSONParser`. -/
inductive UnwrapBehavior : Type where
  /-- the dynamic type has no `Unwrap() error` method -/
  | notImplemented : UnwrapBehavior
  /-- `Unwrap()` exists and returns a nil error -/
  | returnsNil : UnwrapBehavior
  /-- `Unwrap()` exists and returns the given non-nil error -/
  | wraps : GoErr → UnwrapBehavior

/-- Model of a non-nil Go `error` value: its `Error()` string, whether its
dynamic type prints as `*errors.errorString`, whether reflection (after one
pointer dereference) sees a struct, its `Unwrap` behaviour, and the
exported struct fields reflection would enumerate. -/
inductive GoErr : Type where
  | mk : (msg : String) → (isErrorString : Bool) → (structLike : Bool) →
      (unwrapB : UnwrapBehavior) → (exported : List (String × GoValue)) → GoErr

/-- Model of a Go `any` value stored in a field map, a context or a
rendered record. -/
inductive GoValue : Type where
  /-- a nil interface value -/
  | vnil : GoValue
  | vstr : String → GoValue
  | vint : Int → GoValue
  | vbool : Bool → GoValue
  /-- a map or struct value, as key/value pairs -/
  | vobj : List (String × GoValue) → GoValue
  /-- a value whose dynamic type implements `error` -/
  | verr : GoErr → GoValue
end

def GoErr.msg : GoErr → String
  | .mk m _ _ _ _ => m

def GoErr.isErrorString : GoErr → Bool
  | .mk _ b _ _ _ => b

def GoErr.structLike : GoErr → Bool
  | .mk _ _ b _ _ => b

def GoErr.unwrapB : GoErr → UnwrapBehavior
  | .mk _ _ _ u _ => u

def GoErr.exported : GoErr → List (String × GoValue)
  | .mk _ _ _ _ ex => ex

/-- A Go `map[string]any`, as an association list with unique keys
maintained by `insertA`. -/
abbrev Entry := List (String × GoValue)

/-- Map assignment `m[k] = v`: overwrite the binding of `k` if present,
otherwise append it. -/
def insertA : Entry → String → GoValue → Entry
  | [], k, v => [(k, v)]
  | (k', v') :: rest, k, v =>
      if k' = k then (k, v) :: rest else (k', v') :: insertA rest k v

/-- Map lookup `m[k]`. -/
def lookupA : Entry → String → Option GoValue
  | [], _ => none
  | (k', v') :: rest, k => if k' = k then some v' else lookupA rest k

/-- Key list of a map. -/
def keysA : Entry → List String
  | [] => []
  | (k, _) :: rest => k :: keysA rest

/-- The unique-keys invariant every Go map satisfies. -/
def NodupKeys (m : Entry) : Prop := (keysA m).Nodup

/-- The unwrap loop of `DefaultJSONParser` (`logger.go` lines 325-335):
starting from the error value, repeatedly take `Unwrap()` while the method
exists, stopping when it is missing (the current error is returned) or
when it returns nil (`none`: the subsequent
`reflect.TypeOf(innerErr).String()` then dereferences a nil interface and
panics). -/
def walkUnwrap : GoErr → Option GoErr
  | .mk m es sl .notImplemented ex => some (.mk m es sl .notImplemented ex)
  | .mk _ _ _ .returnsNil _ => none
  | .mk _ _ _ (.wraps e2) _ => walkUnwrap e2

/-- The `case error` arm of `DefaultJSONParser` (`logger.go` lines
317-354): build the `errorInfo` sub-map with `error.string` holding the
error string, walk the unwrap chain, and when the innermost error is not a
plain `*errors.errorString` and reflection sees a struct, merge its
exported fields in.  `none` models the panic when the chain ends in a nil
unwrap. -/
def errorInfoRun (e : GoErr) : Option Entry :=
  let base := insertA [] "error.string" (.vstr e.msg)
  match walkUnwrap e with
  | none => none
  | some inner =>
      if inner.isErrorString then some base
      else if inner.structLike then
        some (inner.exported.foldl (fun acc p => insertA acc p.1 p.2) base)
      else some base

/-- Per-field rendering of `DefaultJSONParser` (`logger.go` lines
311-360): nil becomes the literal string `"nil"`, errors become the
`errorInfo` sub-object, everything else passes through unchanged. -/
def renderFieldValue : GoValue → Option GoValue
  | .vnil => some (.vstr "nil")
  | .verr e => (errorInfoRun e).map GoValue.vobj
  | v => some v

/-- The field loop of `DefaultJSONParser`: render each field into the
accumulated record map, propagating a renderer panic. -/
def buildFieldsAux (acc : Entry) : List (String × GoValue) → Option Entry
  | [] => some acc
  | (k, v) :: rest =>
      match renderFieldValue v with
      | none => none
      | some w => buildFieldsAux (insertA acc k w) rest

def buildFields (fs : List (String × GoValue)) : Option Entry :=
  buildFieldsAux [] fs

/-- The fixed-key phase of `DefaultJSONParser` (`logger.go` lines
363-375): `timestamp`, `level`, `app`, `scope`, `message` are written
after the fields; `uid` only when the UID string is non-empty; `ctx` only
when the context argument is non-nil. -/
def finishEntry (now : String) (level : LogLevelEnum)
    (app scope msg uid : String) (ctxv : Option GoValue) (e0 : Entry) :
    Entry :=
  let e5 :=
    insertA (insertA (insertA (insertA (insertA e0
      "timestamp" (.vstr now))
      "level" (.vstr (levelString level)))
      "app" (.vstr app))
      "scope" (.vstr scope))
      "message" (.vstr msg)
  let e6 := if uid = "" then e5 else insertA e5 "uid" (.vstr uid)
  match ctxv with
  | none => e6
  | some c => insertA e6 "ctx" c

/-- `DefaultJSONParser` from `logger.go` lines 300-378 (the map-returning
variant of type `ParserFn`, the one `innerLogger.log` and `logger.log`
call).  `fields = none` models a nil field map; `now` stands for
`time.Now().Format(time.RFC3339)`; `none` as a result models a panic
while rendering a field. -/
def defaultJSONParser (now : String) (level : LogLevelEnum)
    (app scope msg uid : String) (ctxv : Option GoValue)
    (fields : Option (List (String × GoValue))) : Option Entry :=
  match (match fields with
         | none => some ([] : Entry)
         | some fs => buildFields fs) with
  | none => none
  | some e0 => some (finishEntry now level app scope msg uid ctxv e0)

/-- A Go `context.Context` reference: `none` is a nil context, `some bag`
a context whose `Value` method is lookup in `bag` (a nil stored value is
the same as absence). -/
abbrev GoContext := Option (List (String × GoValue))

/-- `context.Background()`: a non-nil context carrying no values. -/
def background : GoContext := some []

/-- The projection loop of `innerLogger.ctxLog` (`logger.go` lines
141-147): for each expected context field, read `ctx.Value`, skipping nil
results. -/
def projectCtx (ecf : List String) (bag : List (String × GoValue)) :
    Entry :=
  ecf.foldl (fun acc cf =>
    match lookupA bag cf with
    | some GoValue.vnil => acc
    | some v => insertA acc cf v
    | none => acc) []

/-- `innerLogger.ctxLog` (`logger.go` lines 136-150): a nil context gives
nil; otherwise the projection map is returned, a non-nil `any` even when
empty. -/
def ctxLogFn (ecf : List String) (ctx : GoContext) : Option GoValue :=
  match ctx with
  | none => none
  | some bag => some (.vobj (projectCtx ecf bag))

/-- The immutable base logger (`logger` struct, `logger.go` lines 23-33;
the writer is modelled by the returned output lines and the parser is the
default JSON parser). -/
structure BaseLogger where
  App : String
  Scope : String
  UID : String
  LogLevel : LogLevelEnum
  expectedCtxFields : List String
deriving Repr, DecidableEq

/-- One `innerLogger` cell (`logger.go` lines 36-45): the shared base
logger by value (its identity fields are never mutated), the context
reference, the captured expected context fields, and the field map. -/
structure InnerLogger where
  base : BaseLogger
  Ctx : GoContext
  expectedCtxFields : List String
  fields : List (String × GoValue)

instance : Inhabited GoValue := ⟨GoValue.vnil⟩

instance : Inhabited BaseLogger := ⟨⟨"", "", "", 0, []⟩⟩

instance : Inhabited InnerLogger := ⟨⟨default, none, [], []⟩⟩

/-- `caller.Upper()` marshals as the `caller.Caller` struct, whose only
serialized field is `Path`. -/
def callerValue (path : String) : GoValue := .vobj [("Path", .vstr path)]

/-- `fmt.Sprintf` is kept abstract: a `sprintf` parameter.  `logger.go`
lines 114-117: the format string is passed through untouched when no
arguments are supplied. -/
def formatMsg (sprintf : String → List GoValue → String)
    (format : String) (args : List GoValue) : String :=
  if args.isEmpty then format else sprintf format args

/-- `innerLogger.With` (`logger.go` lines 47-53): in-place map assignment
on the same instance. -/
def InnerLogger.withField (il : InnerLogger) (k : String) (v : GoValue) :
    InnerLogger :=
  { il with fields := insertA il.fields k v }

/-- `innerLogger.WithCtx` (`logger.go` lines 56-62): replace the stored
context reference wholesale. -/
def InnerLogger.withCtx (il : InnerLogger) (c : GoContext) : InnerLogger :=
  { il with Ctx := c }

/-- `innerLogger.Clone` (`logger.go` lines 64-82): a new instance with a
copied field map, same base logger, same context reference. -/
def InnerLogger.clone (il : InnerLogger) : InnerLogger :=
  { base := il.base
    Ctx := il.Ctx
    expectedCtxFields := il.expectedCtxFields
    fields := il.fields }

mutual
/-- `%+v` of a rendered record map, used by the marshal-failure fallback
line (best-effort dump). -/
def dumpValue : GoValue → String
  | .vnil => "<nil>"
  | .vstr s => s
  | .vint n => toString n
  | .vbool b => toString b
  | .vobj es => "map[" ++ dumpEntries es ++ "]"
  | .verr e => e.msg

def dumpEntries : List (String × GoValue) → String
  | [] => ""
  | (k, v) :: rest => k ++ ":" ++ dumpValue v ++ " " ++ dumpEntries rest
end

/-- The fallback line of `innerLogger.log` / `logger.log`
(`fmt.Fprintf(i.writer, "error marshaling log: %v; %+v", err, logEntry)`). -/
def fallbackLine (err : String) (e : Entry) : String :=
  "error marshaling log: " ++ err ++ "; " ++ dumpEntries e

/-- `innerLogger.log` (`logger.go` lines 109-134): gate on the configured
level, interpolate the message, render via the JSON parser with the
current context projection and field map, marshal, and write one line
(the record via `Fprintln`, or the fallback via `Fprintf` when marshaling
fails).  The result is the list of byte sequences written to the sink;
`none` models a renderer panic (nothing written, the call never
returns). -/
def innerLogRun (il : InnerLogger)
    (marshal : Entry → Except String String)
    (sprintf : String → List GoValue → String)
    (now : String) (level : LogLevelEnum)
    (format : String) (args : List GoValue) : Option (List String) :=
  if il.base.LogLevel < level then some []
  else
    let msg := formatMsg sprintf format args
    match defaultJSONParser now level il.base.App il.base.Scope msg
        il.base.UID (ctxLogFn il.expectedCtxFields il.Ctx)
        (some il.fields) with
    | none => none
    | some entry =>
        match marshal entry with
        | .ok s => some [s ++ "\n"]
        | .error err => some [fallbackLine err entry]

/-- A level method of `innerLogger` (`Log`/`Error`/`Warn`/`Debug`,
`logger.go` lines 85-106): first `i.With("caller", caller.Upper())`
mutates the instance, then the gated `log` runs on the mutated instance.
Returns the mutated instance and the sink output. -/
def InnerLogger.logMethod (il : InnerLogger) (callerPath : String)
    (marshal : Entry → Except String String)
    (sprintf : String → List GoValue → String)
    (now : String) (level : LogLevelEnum)
    (format : String) (args : List GoValue) :
    InnerLogger × Option (List String) :=
  let il2 := il.withField "caller" (callerValue callerPath)
  (il2, innerLogRun il2 marshal sprintf now level format args)

/-- `logger.With` (`logger.go` lines 176-184): derive a fresh scoped
logger with a single-entry field map and `context.Background()` as the
stored context. -/
def BaseLogger.withField (b : BaseLogger) (k : String) (v : GoValue) :
    InnerLogger :=
  { base := b
    Ctx := background
    expectedCtxFields := b.expectedCtxFields
    fields := [(k, v)] }

/-- `logger.WithCtx` (`logger.go` lines 187-195): derive a fresh scoped
logger with an empty field map and the given context. -/
def BaseLogger.withCtxB (b : BaseLogger) (c : GoContext) : InnerLogger :=
  { base := b
    Ctx := c
    expectedCtxFields := b.expectedCtxFields
    fields := [] }

/-- `logger.log` (`logger.go` lines 230-253): gate, interpolate, render
with nil context and nil fields — the `call caller.Ptr` argument is
accepted but never used — marshal and write one line. -/
def baseLogRun (b : BaseLogger) (call : GoValue)
    (marshal : Entry → Except String String)
    (sprintf : String → List GoValue → String)
    (now : String) (level : LogLevelEnum)
    (format : String) (args : List GoValue) : Option (List String) :=
  if b.LogLevel < level then some []
  else
    let _ := call
    let msg := formatMsg sprintf format args
    match defaultJSONParser now level b.App b.Scope msg b.UID none none with
    | none => none
    | some entry =>
        match marshal entry with
        | .ok s => some [s ++ "\n"]
        | .error err => some [fallbackLine err entry]

/-- A level method of the base logger (`logger.go` lines 210-227):
resolve `caller.Upper()` and pass it to `log`, which ignores it. -/
def BaseLogger.logMethodB (b : BaseLogger) (callerPath : String)
    (marshal : Entry → Except String String)
    (sprintf : String → List GoValue → String)
    (now : String) (level : LogLevelEnum)
    (format : String) (args : List GoValue) : Option (List String) :=
  baseLogRun b (callerValue callerPath) marshal sprintf now level format args

/-- A heap of `innerLogger` instances; a `Nat` reference models a Go
pointer to one instance. -/
abbrev Heap := List InnerLogger

def cellAt (h : Heap) (r : Nat) : InnerLogger := h.getD r default

/-- `innerLogger.With` through a reference: mutate the pointed-to
instance, return the same reference (`return i`). -/
def heapWith (h : Heap) (r : Nat) (k : String) (v : GoValue) :
    Heap × Nat :=
  (h.set r ((cellAt h r).withField k v), r)

/-- `innerLogger.Clone` through a reference: allocate a new instance
holding a copy of the fields; the fresh reference is the old heap
length. -/
def heapClone (h : Heap) (r : Nat) : Heap × Nat :=
  (h ++ [(cellAt h r).clone], h.length)

/-- `innerLogger.WithCtx` through a reference. -/
def heapWithCtx (h : Heap) (r : Nat) (c : GoContext) : Heap × Nat :=
  (h.set r ((cellAt h r).withCtx c), r)

/-- The record map assembled by one scoped emission: the exact
`DefaultJSONParser` call in `innerLogger.log` line 126,
`parser(level, i.App, i.Scope, msg, i.UID, i.ctxLog(i.Ctx), i.fields)`. -/
def emissionEntry (il : InnerLogger)
    (sprintf : String → List GoValue → String) (now : String)
    (level : LogLevelEnum) (format : String) (args : List GoValue) :
    Option Entry :=
  defaultJSONParser now level il.base.App il.base.Scope
    (formatMsg sprintf format args) il.base.UID
    (ctxLogFn il.expectedCtxFields il.Ctx) (some il.fields)

/-! ### Map lemmas -/

theorem lookupA_insertA_self (m : Entry) (k : String) (v : GoValue) :
    lookupA (insertA m k v) k = some v := by
  induction m with
  | nil => simp [insertA, lookupA]
  | cons p rest ih =>
      obtain ⟨a, b⟩ := p
      by_cases hak : a = k
      · subst hak
        simp [insertA, lookupA]
      · simp [insertA, hak, lookupA, ih]

theorem lookupA_insertA_ne (m : Entry) (k q : String) (v : GoValue)
    (h : k ≠ q) : lookupA (insertA m k v) q = lookupA m q := by
  induction m with
  | nil => simp [insertA, lookupA, h]
  | cons p rest ih =>
      obtain ⟨a, b⟩ := p
      by_cases hak : a = k
      · subst hak
        simp [insertA, lookupA, h]
      · by_cases haq : a = q
        · subst haq
          simp [insertA, hak, lookupA]
        · simp [insertA, hak, lookupA, haq, ih]

theorem keysA_insertA_mem (m : Entry) (k : String) (v : GoValue)
    (h : k ∈ keysA m) : keysA (insertA m k v) = keysA m := by
  induction m with
  | nil => simp [keysA] at h
  | cons p rest ih =>
      obtain ⟨a, b⟩ := p
      by_cases hak : a = k
      · subst hak
        simp [insertA, keysA]
      · rcases List.mem_cons.mp h with h | h
        · exact absurd h.symm hak
        · simp [insertA, hak, keysA] at ih ⊢
          exact ih h

theorem keysA_insertA_notMem (m : Entry) (k : String) (v : GoValue)
    (h : k ∉ keysA m) : keysA (insertA m k v) = keysA m ++ [k] := by
  induction m with
  | nil => simp [insertA, keysA]
  | cons p rest ih =>
      obtain ⟨a, b⟩ := p
      have h1 : k ≠ a := fun hka => h (by simp [keysA, hka])
      have h2 : k ∉ keysA rest := fun hkr => h (by simp [keysA, hkr])
      simp [insertA, Ne.symm h1, keysA] at ih ⊢
      exact ih h2

theorem nodupKeys_insertA (m : Entry) (k : String) (v : GoValue)
    (h : NodupKeys m) : NodupKeys (insertA m k v) := by
  by_cases hk : k ∈ keysA m
  · unfold NodupKeys
    rw [keysA_insertA_mem m k v hk]
    exact h
  · unfold NodupKeys
    rw [keysA_insertA_notMem m k v hk]
    simp [NodupKeys, List.nodup_append] at h ⊢
    exact ⟨h, hk⟩

theorem notMem_of_lookupA_none (m : Entry) (k : String)
    (h : lookupA m k = none) : k ∉ keysA m := by
  induction m with
  | nil => simp [keysA]
  | cons p rest ih =>
      obtain ⟨a, b⟩ := p
      by_cases hak : a = k
      · subst hak
        simp [lookupA] at h
      · simp [lookupA, hak] at h
        intro hm
        rcases List.mem_cons.mp hm with hm | hm
        · exact hak hm.symm
        · exact ih h hm

theorem lookupA_foldl_insertA_ne (ps : List (String × GoValue)) :
    ∀ (m : Entry) (k : String), (∀ p ∈ ps, p.1 ≠ k) →
      lookupA (ps.foldl (fun acc p => insertA acc p.1 p.2) m) k =
        lookupA m k := by
  induction ps with
  | nil => intro m k _; rfl
  | cons p rest ih =>
      intro m k h
      rw [List.foldl_cons,
        ih (insertA m p.1 p.2) k (fun q hq => h q (List.mem_cons_of_mem _ hq)),
        lookupA_insertA_ne m p.1 k p.2 (h p (List.mem_cons_self _ _))]

/-! ### Field-loop lemmas -/

theorem buildFieldsAux_notMem (fs : List (String × GoValue)) :
    ∀ (acc es : Entry) (k : String),
      buildFieldsAux acc fs = some es → k ∉ keysA fs →
      lookupA es k = lookupA acc k := by
  induction fs with
  | nil =>
      intro acc es k hb _
      simp [buildFieldsAux] at hb
      subst hb; rfl
  | cons p rest ih =>
      intro acc es k hb hk
      obtain ⟨a, b⟩ := p
      have h1 : k ≠ a := fun hka => hk (by simp [keysA, hka])
      have h2 : k ∉ keysA rest := fun hkr => hk (by simp [keysA, hkr])
      simp only [buildFieldsAux] at hb
      cases hr : renderFieldValue b with
      | none => rw [hr] at hb; exact absurd hb (by simp)
      | some w =>
          rw [hr] at hb
          have := ih (insertA acc a w) es k hb h2
          rw [this, lookupA_insertA_ne acc a k w (Ne.symm h1)]

theorem buildFieldsAux_lookup (fs : List (String × GoValue)) :
    ∀ (acc es : Entry) (k : String) (v : GoValue),
      (keysA fs).Nodup → buildFieldsAux acc fs = some es →
      lookupA fs k = some v → lookupA es k = renderFieldValue v := by
  induction fs with
  | nil =>
      intro acc es k v _ _ hfk
      simp [lookupA] at hfk
  | cons p rest ih =>
      intro acc es k v hnd hb hfk
      obtain ⟨a, b⟩ := p
      simp only [buildFieldsAux] at hb
      cases hr : renderFieldValue b with
      | none => rw [hr] at hb; exact absurd hb (by simp)
      | some w =>
          rw [hr] at hb
          simp only [keysA, List.nodup_cons] at hnd
          by_cases hak : a = k
          · subst hak
            simp [lookupA] at hfk
            subst hfk
            rw [buildFieldsAux_notMem rest (insertA acc a w) es a hb hnd.1,
              lookupA_insertA_self, hr]
          · simp [lookupA, hak] at hfk
            exact ih (insertA acc a w) es k v hnd.2 hb hfk

theorem buildFields_lookup (fs : List (String × GoValue)) (es : Entry)
    (k : String) (v : GoValue) (hnd : (keysA fs).Nodup)
    (hb : buildFields fs = some es) (hfk : lookupA fs k = some v) :
    lookupA es k = renderFieldValue v :=
  buildFieldsAux_lookup fs [] es k v hnd hb hfk

theorem buildFields_notMem (fs : List (String × GoValue)) (es : Entry)
    (k : String) (hb : buildFields fs = some es)
    (hk : k ∉ keysA fs) : lookupA es k = none :=
  buildFieldsAux_notMem fs [] es k hb hk

/-- Pointwise render success makes the field loop succeed. -/
theorem buildFieldsAux_total (fs : List (String × GoValue)) :
    ∀ acc : Entry, (∀ p ∈ fs, renderFieldValue p.2 ≠ none) →
      ∃ es, buildFieldsAux acc fs = some es := by
  induction fs with
  | nil => intro acc _; exact ⟨acc, rfl⟩
  | cons p rest ih =>
      intro acc h
      obtain ⟨a, b⟩ := p
      cases hr : renderFieldValue b with
      | none => exact absurd hr (h (a, b) (by simp))
      | some w =>
          obtain ⟨es, hes⟩ := ih (insertA acc a w)
            (fun q hq => h q (List.mem_cons_of_mem _ hq))
          exact ⟨es, by simp only [buildFieldsAux, hr]; exact hes⟩

/-! ### Fixed-key lemmas about `finishEntry` -/

theorem finishEntry_ctx (now : String) (l : LogLevelEnum)
    (app scope msg uid : String) (c : GoValue) (e0 : Entry) :
    lookupA (finishEntry now l app scope msg uid (some c) e0) "ctx" =
      some c := by
  unfold finishEntry
  simp only []
  exact lookupA_insertA_self _ "ctx" c

theorem finishEntry_uid_nonempty (now : String) (l : LogLevelEnum)
    (app scope msg uid : String) (ctxv : Option GoValue) (e0 : Entry)
    (h : uid ≠ "") :
    lookupA (finishEntry now l app scope msg uid ctxv e0) "uid" =
      some (.vstr uid) := by
  unfold finishEntry
  cases ctxv with
  | none =>
      simp only [if_neg h]
      exact lookupA_insertA_self _ "uid" _
  | some c =>
      simp only [if_neg h]
      rw [lookupA_insertA_ne _ "ctx" "uid" _ (by decide)]
      exact lookupA_insertA_self _ "uid" _

theorem finishEntry_uid_empty (now : String) (l : LogLevelEnum)
    (app scope msg : String) (ctxv : Option GoValue) (e0 : Entry) :
    lookupA (finishEntry now l app scope msg "" ctxv e0) "uid" =
      lookupA e0 "uid" := by
  unfold finishEntry
  cases ctxv with
  | none =>
      dsimp only
      rw [if_pos rfl]
      rw [lookupA_insertA_ne _ "message" "uid" _ (by decide),
        lookupA_insertA_ne _ "scope" "uid" _ (by decide),
        lookupA_insertA_ne _ "app" "uid" _ (by decide),
        lookupA_insertA_ne _ "level" "uid" _ (by decide),
        lookupA_insertA_ne _ "timestamp" "uid" _ (by decide)]
  | some c =>
      dsimp only
      rw [if_pos rfl]
      rw [lookupA_insertA_ne _ "ctx" "uid" _ (by decide),
        lookupA_insertA_ne _ "message" "uid" _ (by decide),
        lookupA_insertA_ne _ "scope" "uid" _ (by decide),
        lookupA_insertA_ne _ "app" "uid" _ (by decide),
        lookupA_insertA_ne _ "level" "uid" _ (by decide),
        lookupA_insertA_ne _ "timestamp" "uid" _ (by decide)]

/-- Strip the `ctx` insertion and the `uid` conditional from a lookup at a
key other than `"uid"` and `"ctx"`. -/
theorem finishEntry_reduce (now : String) (l : LogLevelEnum)
    (app scope msg uid : String) (ctxv : Option GoValue) (e0 : Entry)
    (q : String) (hu : q ≠ "uid") (hc : q ≠ "ctx") :
    lookupA (finishEntry now l app scope msg uid ctxv e0) q =
      lookupA (insertA (insertA (insertA (insertA (insertA e0
        "timestamp" (.vstr now))
        "level" (.vstr (levelString l)))
        "app" (.vstr app))
        "scope" (.vstr scope))
        "message" (.vstr msg)) q := by
  unfold finishEntry
  cases ctxv with
  | none =>
      dsimp only
      by_cases h : uid = ""
      · rw [if_pos h]
      · rw [if_neg h]
        exact lookupA_insertA_ne _ "uid" q _ (Ne.symm hu)
  | some c =>
      dsimp only
      by_cases h : uid = ""
      · rw [if_pos h]
        exact lookupA_insertA_ne _ "ctx" q _ (Ne.symm hc)
      · rw [if_neg h, lookupA_insertA_ne _ "ctx" q _ (Ne.symm hc)]
        exact lookupA_insertA_ne _ "uid" q _ (Ne.symm hu)

theorem finishEntry_message (now : String) (l : LogLevelEnum)
    (app scope msg uid : String) (ctxv : Option GoValue) (e0 : Entry) :
    lookupA (finishEntry now l app scope msg uid ctxv e0) "message" =
      some (.vstr msg) := by
  rw [finishEntry_reduce now l app scope msg uid ctxv e0 "message"
    (by decide) (by decide)]
  exact lookupA_insertA_self _ "message" _

theorem finishEntry_level (now : String) (l : LogLevelEnum)
    (app scope msg uid : String) (ctxv : Option GoValue) (e0 : Entry) :
    lookupA (finishEntry now l app scope msg uid ctxv e0) "level" =
      some (.vstr (levelString l)) := by
  rw [finishEntry_reduce now l app scope msg uid ctxv e0 "level"
    (by decide) (by decide),
    lookupA_insertA_ne _ "message" "level" _ (by decide),
    lookupA_insertA_ne _ "scope" "level" _ (by decide),
    lookupA_insertA_ne _ "app" "level" _ (by decide)]
  exact lookupA_insertA_self _ "level" _

theorem finishEntry_app (now : String) (l : LogLevelEnum)
    (app scope msg uid : String) (ctxv : Option GoValue) (e0 : Entry) :
    lookupA (finishEntry now l app scope msg uid ctxv e0) "app" =
      some (.vstr app) := by
  rw [finishEntry_reduce now l app scope msg uid ctxv e0 "app"
    (by decide) (by decide),
    lookupA_insertA_ne _ "message" "app" _ (by decide),
    lookupA_insertA_ne _ "scope" "app" _ (by decide)]
  exact lookupA_insertA_self _ "app" _

theorem finishEntry_scope (now : String) (l : LogLevelEnum)
    (app scope msg uid : String) (ctxv : Option GoValue) (e0 : Entry) :
    lookupA (finishEntry now l app scope msg uid ctxv e0) "scope" =
      some (.vstr scope) := by
  rw [finishEntry_reduce now l app scope msg uid ctxv e0 "scope"
    (by decide) (by decide),
    lookupA_insertA_ne _ "message" "scope" _ (by decide)]
  exact lookupA_insertA_self _ "scope" _

theorem finishEntry_timestamp (now : String) (l : LogLevelEnum)
    (app scope msg uid : String) (ctxv : Option GoValue) (e0 : Entry) :
    lookupA (finishEntry now l app scope msg uid ctxv e0) "timestamp" =
      some (.vstr now) := by
  rw [finishEntry_reduce now l app scope msg uid ctxv e0 "timestamp"
    (by decide) (by decide),
    lookupA_insertA_ne _ "message" "timestamp" _ (by decide),
    lookupA_insertA_ne _ "scope" "timestamp" _ (by decide),
    lookupA_insertA_ne _ "app" "timestamp" _ (by decide),
    lookupA_insertA_ne _ "level" "timestamp" _ (by decide)]
  exact lookupA_insertA_self _ "timestamp" _

/-- A lookup at a key distinct from all seven fixed keys passes through to
the rendered field map. -/
theorem finishEntry_other (now : String) (l : LogLevelEnum)
    (app scope msg uid : String) (ctxv : Option GoValue) (e0 : Entry)
    (q : String) (h1 : q ≠ "timestamp") (h2 : q ≠ "level")
    (h3 : q ≠ "app") (h4 : q ≠ "scope") (h5 : q ≠ "message")
    (h6 : q ≠ "uid") (h7 : q ≠ "ctx") :
    lookupA (finishEntry now l app scope msg uid ctxv e0) q =
      lookupA e0 q := by
  rw [finishEntry_reduce now l app scope msg uid ctxv e0 q h6 h7,
    lookupA_insertA_ne _ "message" q _ (Ne.symm h5),
    lookupA_insertA_ne _ "scope" q _ (Ne.symm h4),
    lookupA_insertA_ne _ "app" q _ (Ne.symm h3),
    lookupA_insertA_ne _ "level" q _ (Ne.symm h2),
    lookupA_insertA_ne _ "timestamp" q _ (Ne.symm h1)]

/-! ### Parser-level lemmas -/

/-- Invert a successful parser run into the rendered field map and the
fixed-key phase. -/
theorem parser_inv {now : String} {l : LogLevelEnum}
    {app scope msg uid : String} {ctxv : Option GoValue}
    {fields : Option (List (String × GoValue))} {es : Entry}
    (hp : defaultJSONParser now l app scope msg uid ctxv fields =
      some es) :
    ∃ e0, (match fields with
           | none => some ([] : Entry)
           | some fs => buildFields fs) = some e0 ∧
      es = finishEntry now l app scope msg uid ctxv e0 := by
  unfold defaultJSONParser at hp
  cases hm : (match fields with
              | none => some ([] : Entry)
              | some fs => buildFields fs) with
  | none => rw [hm] at hp; exact absurd hp (by simp)
  | some e0 =>
      rw [hm] at hp
      simp only [Option.some.injEq] at hp
      exact ⟨e0, rfl, hp.symm⟩

/-- With a nil field map the parser always succeeds, on the fixed keys
alone. -/
theorem parser_fields_none (now : String) (l : LogLevelEnum)
    (app scope msg uid : String) (ctxv : Option GoValue) :
    defaultJSONParser now l app scope msg uid ctxv none =
      some (finishEntry now l app scope msg uid ctxv []) := rfl

/-- Pointwise render success makes the whole parser succeed. -/
theorem parser_total (now : String) (l : LogLevelEnum)
    (app scope msg uid : String) (ctxv : Option GoValue)
    (fs : List (String × GoValue))
    (h : ∀ p ∈ fs, renderFieldValue p.2 ≠ none) :
    ∃ es, defaultJSONParser now l app scope msg uid ctxv (some fs) =
      some es := by
  obtain ⟨e0, he0⟩ := buildFieldsAux_total fs [] h
  refine ⟨finishEntry now l app scope msg uid ctxv e0, ?_⟩
  unfold defaultJSONParser buildFields
  simp only []
  rw [he0]

/-- The `ExpectedContextFields` projection of a context with no values is
the empty map. -/
theorem projectCtx_empty (ecf : List String) : projectCtx ecf [] = [] := by
  unfold projectCtx
  induction ecf with
  | nil => rfl
  | cons cf rest ih =>
      rw [List.foldl_cons]
      exact ih

/-! ### Heap lemmas -/

theorem cellAt_set_self (h : Heap) (r : Nat) (x : InnerLogger)
    (hr : r < h.length) : cellAt (h.set r x) r = x := by
  induction h generalizing r with
  | nil => simp at hr
  | cons y t ih =>
      cases r with
      | zero => rfl
      | succ n =>
          simp only [List.set, cellAt, List.getD] at ih ⊢
          exact ih n (by simpa using hr)

theorem cellAt_set_ne (h : Heap) (r r' : Nat) (x : InnerLogger)
    (hne : r' ≠ r) : cellAt (h.set r' x) r = cellAt h r := by
  induction h generalizing r r' with
  | nil => rfl
  | cons y t ih =>
      cases r' with
      | zero =>
          cases r with
          | zero => exact absurd rfl hne
          | succ n => rfl
      | succ n' =>
          cases r with
          | zero => rfl
          | succ n =>
              simp only [List.set, cellAt, List.getD] at ih ⊢
              exact ih n n' (fun he => hne (by rw [he]))

theorem cellAt_append_lt (h : Heap) (x : InnerLogger) (r : Nat)
    (hr : r < h.length) : cellAt (h ++ [x]) r = cellAt h r := by
  induction h generalizing r with
  | nil => simp at hr
  | cons y t ih =>
      cases r with
      | zero => rfl
      | succ n =>
          simp only [List.cons_append, cellAt, List.getD] at ih ⊢
          exact ih n (by simpa using hr)

theorem cellAt_append_len (h : Heap) (x : InnerLogger) :
    cellAt (h ++ [x]) h.length = x := by
  induction h with
  | nil => rfl
  | cons y t ih =>
      simpa only [List.cons_append, List.length_cons, cellAt,
        List.getD] using ih

/-! ### Emission lemmas -/

/-- `innerLogger.log` in terms of the assembled record map. -/
theorem innerLogRun_eq (il : InnerLogger)
    (marshal : Entry → Except String String)
    (sprintf : String → List GoValue → String) (now : String)
    (level : LogLevelEnum) (format : String) (args : List GoValue) :
    innerLogRun il marshal sprintf now level format args =
      if il.base.LogLevel < level then some []
      else
        match emissionEntry il sprintf now level format args with
        | none => none
        | some entry =>
            match marshal entry with
            | .ok s => some [s ++ "\n"]
            | .error err => some [fallbackLine err entry] := rfl

/-- The instance a scoped level method runs `log` on: the same instance
with `caller` overwritten. -/
theorem logMethod_fst (il : InnerLogger) (callerPath : String)
    (marshal : Entry → Except String String)
    (sprintf : String → List GoValue → String) (now : String)
    (level : LogLevelEnum) (format : String) (args : List GoValue) :
    (il.logMethod callerPath marshal sprintf now level format args).1 =
      il.withField "caller" (callerValue callerPath) := rfl

theorem logMethod_snd (il : InnerLogger) (callerPath : String)
    (marshal : Entry → Except String String)
    (sprintf : String → List GoValue → String) (now : String)
    (level : LogLevelEnum) (format : String) (args : List GoValue) :
    (il.logMethod callerPath marshal sprintf now level format args).2 =
      innerLogRun (il.withField "caller" (callerValue callerPath))
        marshal sprintf now level format args := rfl

theorem withField_base (il : InnerLogger) (k : String) (v : GoValue) :
    (il.withField k v).base = il.base := rfl

theorem withField_fields (il : InnerLogger) (k : String) (v : GoValue) :
    (il.withField k v).fields = insertA il.fields k v := rfl

/-! ### Claim C1 -/

/-- C1, counterexample.  The claim states that a record is written to the
sink if and only if `L ≤ M`.  Here a scoped logger at minimum level
`LOG = 2` emits at `ERROR = 0`, so `L ≤ M` holds, yet nothing is written:
the field map holds an error whose `Unwrap()` returns nil, and
`DefaultJSONParser` then panics at `reflect.TypeOf(innerErr).String()`
(modelled by the `none` result) before reaching the sink.  (The repo's
own `TestWrapped` exercises exactly this input and expects the call to
complete.) -/
theorem c1_counterexample :
    ERROR ≤ (LOG : LogLevelEnum) ∧
    (InnerLogger.logMethod
        ⟨⟨"app", "scope", "", LOG, []⟩, some [], [],
          [("err", .verr (.mk "boom" false false .returnsNil []))]⟩
        "pkg.fn" (fun e => Except.ok (dumpEntries e)) (fun f _ => f)
        "2026-01-01T00:00:00Z" ERROR "failure" []).2 = none :=
  ⟨by decide, rfl⟩

/-- C1 (amended): for every logger (base or scoped) configured with
minimum level `M` and every emission call at level `L`, nothing is
written to the sink when `L > M` (under `ERROR=0 < WARN=1 < LOG=2 <
DEBUG=3`); when `L ≤ M`, exactly one line is written (the record, or the
marshal-failure fallback), provided record rendering does not panic —
for a scoped logger it panics exactly when a field value is an error
whose unwrap chain ends in a nil `Unwrap()`; a base-logger emission
renders with nil fields and never panics, so its gate equivalence is
unconditional. -/
theorem c1_gate (il : InnerLogger) (b : BaseLogger) (callerPath : String)
    (marshal : Entry → Except String String)
    (sprintf : String → List GoValue → String) (now : String)
    (level : LogLevelEnum) (format : String) (args : List GoValue)
    (hok : ∀ p ∈ insertA il.fields "caller" (callerValue callerPath),
      renderFieldValue p.2 ≠ none) :
    ((il.base.LogLevel < level →
        (il.logMethod callerPath marshal sprintf now level format
          args).2 = some []) ∧
      (level ≤ il.base.LogLevel →
        ∃ line, (il.logMethod callerPath marshal sprintf now level format
          args).2 = some [line])) ∧
    ((b.LogLevel < level →
        b.logMethodB callerPath marshal sprintf now level format args =
          some []) ∧
      (level ≤ b.LogLevel →
        ∃ line, b.logMethodB callerPath marshal sprintf now level format
          args = some [line])) := by
  refine ⟨⟨?_, ?_⟩, ?_, ?_⟩
  · intro hlt
    rw [logMethod_snd, innerLogRun_eq, withField_base, if_pos hlt]
  · intro hle
    rw [logMethod_snd, innerLogRun_eq, withField_base,
      if_neg (not_lt.mpr hle)]
    obtain ⟨es, hes⟩ := parser_total now level il.base.App il.base.Scope
      (formatMsg sprintf format args) il.base.UID
      (ctxLogFn il.expectedCtxFields il.Ctx)
      (insertA il.fields "caller" (callerValue callerPath)) hok
    have hE : emissionEntry (il.withField "caller"
        (callerValue callerPath)) sprintf now level format args =
        some es := hes
    rw [hE]
    dsimp only
    cases hm : marshal es with
    | ok s => exact ⟨s ++ "\n", rfl⟩
    | error err => exact ⟨fallbackLine err es, rfl⟩
  · intro hlt
    unfold BaseLogger.logMethodB baseLogRun
    rw [if_pos hlt]
  · intro hle
    unfold BaseLogger.logMethodB baseLogRun
    rw [if_neg (not_lt.mpr hle)]
    dsimp only
    rw [parser_fields_none]
    dsimp only
    cases hm : marshal (finishEntry now level b.App b.Scope
        (formatMsg sprintf format args) b.UID none []) with
    | ok s => exact ⟨s ++ "\n", rfl⟩
    | error err => exact ⟨fallbackLine err _, rfl⟩

/-- C1 witness: a scoped logger and a base logger at minimum level `LOG`
write exactly one line at `ERROR` and nothing at `DEBUG`. -/
theorem c1_gate_witness :
    ((InnerLogger.logMethod ⟨⟨"a", "s", "", LOG, []⟩, some [], [], []⟩
        "c" (fun e => Except.ok (dumpEntries e)) (fun f _ => f) "T"
        DEBUG "m" []).2 = some []) ∧
    (∃ line, (InnerLogger.logMethod
        ⟨⟨"a", "s", "", LOG, []⟩, some [], [], []⟩
        "c" (fun e => Except.ok (dumpEntries e)) (fun f _ => f) "T"
        ERROR "m" []).2 = some [line]) := by
  have h := c1_gate ⟨⟨"a", "s", "", LOG, []⟩, some [], [], []⟩
    ⟨"a", "s", "", LOG, []⟩ "c" (fun e => Except.ok (dumpEntries e))
    (fun f _ => f) "T" DEBUG "m" []
    (by
      intro p hp
      simp only [insertA] at hp
      rcases List.mem_singleton.mp hp with rfl
      simp [renderFieldValue, callerValue])
  have h2 := c1_gate ⟨⟨"a", "s", "", LOG, []⟩, some [], [], []⟩
    ⟨"a", "s", "", LOG, []⟩ "c" (fun e => Except.ok (dumpEntries e))
    (fun f _ => f) "T" ERROR "m" []
    (by
      intro p hp
      simp only [insertA] at hp
      rcases List.mem_singleton.mp hp with rfl
      simp [renderFieldValue, callerValue])
  exact ⟨h.1.1 (by decide), h2.1.2 (by decide)⟩

/-! ### Claim C2 -/

/-- C2, counterexample.  The claim states the mapping contains the key
`uid` if and only if the logger's UID string is non-empty, and that
reserved keys are never displaced by caller fields.  With an empty UID
and a caller-supplied field named `uid`, the fixed-key phase skips `uid`
entirely and the caller's value survives in the produced mapping. -/
theorem c2_counterexample :
    defaultJSONParser "T" LOG "app" "scope" "msg" "" none
        (some [("uid", GoValue.vstr "sneaky")]) =
      some [("uid", .vstr "sneaky"), ("timestamp", .vstr "T"),
        ("level", .vstr "LOG"), ("app", .vstr "app"),
        ("scope", .vstr "scope"), ("message", .vstr "msg")] ∧
    lookupA [("uid", .vstr "sneaky"), ("timestamp", .vstr "T"),
        ("level", .vstr "LOG"), ("app", .vstr "app"),
        ("scope", .vstr "scope"), ("message", .vstr "msg")] "uid" =
      some (.vstr "sneaky") :=
  ⟨rfl, rfl⟩

/-- C2 (amended): every produced mapping contains `timestamp`, `level`,
`app`, `scope` and `message`, holding the logger-supplied values — these
five are written after the fields and displace any caller field of the
same name.  `uid` holds the logger's UID whenever that is non-empty
(displacing caller fields); when the UID is empty the `uid` key is
present exactly when the caller supplied a field named `uid` (whose
rendered value then survives). -/
theorem c2_fixed_keys (now : String) (l : LogLevelEnum)
    (app scope msg uid : String) (ctxv : Option GoValue)
    (fields : Option (List (String × GoValue))) (es : Entry)
    (hp : defaultJSONParser now l app scope msg uid ctxv fields =
      some es) :
    lookupA es "timestamp" = some (.vstr now) ∧
    lookupA es "level" = some (.vstr (levelString l)) ∧
    lookupA es "app" = some (.vstr app) ∧
    lookupA es "scope" = some (.vstr scope) ∧
    lookupA es "message" = some (.vstr msg) ∧
    (uid ≠ "" → lookupA es "uid" = some (.vstr uid)) ∧
    (uid = "" → fields = none → lookupA es "uid" = none) ∧
    (uid = "" → ∀ fs, fields = some fs → NodupKeys fs →
      lookupA es "uid" = (lookupA fs "uid").bind renderFieldValue) := by
  obtain ⟨e0, he0, hes⟩ := parser_inv hp
  subst hes
  refine ⟨finishEntry_timestamp .., finishEntry_level ..,
    finishEntry_app .., finishEntry_scope .., finishEntry_message ..,
    fun hu => finishEntry_uid_nonempty now l app scope msg uid ctxv e0 hu,
    ?_, ?_⟩
  · intro hu hf
    subst hu hf
    rw [finishEntry_uid_empty]
    simp only [Option.some.injEq] at he0
    rw [← he0]
    rfl
  · intro hu fs hf hnd
    subst hu hf
    rw [finishEntry_uid_empty]
    cases hl : lookupA fs "uid" with
    | none =>
        rw [buildFields_notMem fs e0 "uid" he0
          (notMem_of_lookupA_none fs "uid" hl)]
        rfl
    | some v =>
        rw [buildFields_lookup fs e0 "uid" v hnd he0 hl]
        rfl

/-- C2 witness: a logger with non-empty UID keeps its `uid` even against
a caller field of the same name. -/
theorem c2_fixed_keys_witness :
    lookupA [("uid", GoValue.vstr "u1"), ("timestamp", .vstr "T"),
        ("level", .vstr "ERROR"), ("app", .vstr "a"),
        ("scope", .vstr "s"), ("message", .vstr "m")] "uid" =
      some (GoValue.vstr "u1") ∧
    lookupA [("uid", GoValue.vstr "u1"), ("timestamp", .vstr "T"),
        ("level", .vstr "ERROR"), ("app", .vstr "a"),
        ("scope", .vstr "s"), ("message", .vstr "m")] "message" =
      some (GoValue.vstr "m") := by
  have h := c2_fixed_keys "T" ERROR "a" "s" "m" "u1" none
    (some [("uid", GoValue.vstr "evil")])
    [("uid", GoValue.vstr "u1"), ("timestamp", .vstr "T"),
      ("level", .vstr "ERROR"), ("app", .vstr "a"),
      ("scope", .vstr "s"), ("message", .vstr "m")] (by rfl)
  exact ⟨h.2.2.2.2.2.1 (by decide), h.2.2.2.2.1⟩

/-! ### Claim C3 -/

/-- C3: an emission at a non-suppressed level writes the marshalled
record, and that record maps `level` to the string name of the level enum
passed in (for the four enum constants `levelString` is exactly the
name) and `message` to the interpolation of the format string with the
arguments, the format string itself when there are no arguments. -/
theorem c3_roundtrip (il : InnerLogger) (callerPath : String)
    (marshal : Entry → Except String String)
    (sprintf : String → List GoValue → String) (now : String)
    (level : LogLevelEnum) (format : String) (args : List GoValue)
    (es : Entry) (s : String)
    (hgate : level ≤ il.base.LogLevel)
    (hp : emissionEntry (il.withField "caller" (callerValue callerPath))
      sprintf now level format args = some es)
    (hm : marshal es = Except.ok s) :
    (il.logMethod callerPath marshal sprintf now level format args).2 =
      some [s ++ "\n"] ∧
    lookupA es "level" = some (.vstr (levelString level)) ∧
    lookupA es "message" =
      some (.vstr (formatMsg sprintf format args)) ∧
    (args = [] → formatMsg sprintf format args = format) ∧
    (levelString ERROR = "ERROR" ∧ levelString WARN = "WARN" ∧
      levelString LOG = "LOG" ∧ levelString DEBUG = "DEBUG") := by
  obtain ⟨e0, he0, hes⟩ := parser_inv hp
  refine ⟨?_, ?_, ?_, ?_, rfl, rfl, rfl, rfl⟩
  · rw [logMethod_snd, innerLogRun_eq, withField_base,
      if_neg (not_lt.mpr hgate), hp]
    dsimp only
    rw [hm]
  · rw [hes]; exact finishEntry_level ..
  · rw [hes]; exact finishEntry_message ..
  · intro ha
    simp [formatMsg, ha]

/-- C3 witness: a scoped logger at `DEBUG` emitting `Log("hello")`
writes a record whose `level` is `"LOG"` and whose `message` is
`"hello"`. -/
theorem c3_roundtrip_witness :
    lookupA [("caller", GoValue.vobj [("Path", .vstr "c")]),
        ("timestamp", .vstr "T"), ("level", .vstr "LOG"),
        ("app", .vstr "MyApp"), ("scope", .vstr "MainScope"),
        ("message", .vstr "hello"), ("ctx", .vobj [])] "level" =
      some (.vstr (levelString LOG)) ∧
    lookupA [("caller", GoValue.vobj [("Path", .vstr "c")]),
        ("timestamp", .vstr "T"), ("level", .vstr "LOG"),
        ("app", .vstr "MyApp"), ("scope", .vstr "MainScope"),
        ("message", .vstr "hello"), ("ctx", .vobj [])] "message" =
      some (.vstr (formatMsg (fun f _ => f) "hello" [])) := by
  have h := c3_roundtrip
    ⟨⟨"MyApp", "MainScope", "", DEBUG, []⟩, some [], [], []⟩ "c"
    (fun e => Except.ok (dumpEntries e)) (fun f _ => f) "T" LOG "hello"
    []
    [("caller", GoValue.vobj [("Path", .vstr "c")]),
      ("timestamp", .vstr "T"), ("level", .vstr "LOG"),
      ("app", .vstr "MyApp"), ("scope", .vstr "MainScope"),
      ("message", .vstr "hello"), ("ctx", .vobj [])]
    (dumpEntries [("caller", GoValue.vobj [("Path", .vstr "c")]),
      ("timestamp", .vstr "T"), ("level", .vstr "LOG"),
      ("app", .vstr "MyApp"), ("scope", .vstr "MainScope"),
      ("message", .vstr "hello"), ("ctx", .vobj [])])
    (by decide) rfl rfl
  exact ⟨h.2.1, h.2.2.1⟩

/-! ### Claim C4 -/

/-- C4: `Clone` on a scoped logger returns a distinct instance whose
field map equals the original's at clone time; afterwards a `With` on the
clone leaves the original's state (and hence its rendered records)
untouched, and a `With` on the original leaves the clone's state
untouched. -/
theorem c4_clone_independent (h : Heap) (r : Nat) (hr : r < h.length)
    (k k2 : String) (v v2 : GoValue)
    (marshal : Entry → Except String String)
    (sprintf : String → List GoValue → String) (now : String)
    (level : LogLevelEnum) (format : String) (args : List GoValue) :
    (heapClone h r).2 ≠ r ∧
    (cellAt (heapClone h r).1 (heapClone h r).2).fields =
      (cellAt h r).fields ∧
    cellAt (heapWith (heapClone h r).1 (heapClone h r).2 k v).1 r =
      cellAt h r ∧
    cellAt (heapWith (heapClone h r).1 r k2 v2).1 (heapClone h r).2 =
      cellAt (heapClone h r).1 (heapClone h r).2 ∧
    innerLogRun
        (cellAt (heapWith (heapClone h r).1 (heapClone h r).2 k v).1 r)
        marshal sprintf now level format args =
      innerLogRun (cellAt h r) marshal sprintf now level format args := by
  have hlen : (heapClone h r).2 = h.length := rfl
  have hne : h.length ≠ r := Ne.symm (Nat.ne_of_lt hr)
  have hcell : cellAt (heapWith (heapClone h r).1 (heapClone h r).2 k
      v).1 r = cellAt h r := by
    show cellAt ((h ++ [(cellAt h r).clone]).set h.length _) r = cellAt h r
    rw [cellAt_set_ne _ _ _ _ hne, cellAt_append_lt h _ r hr]
  refine ⟨hlen ▸ hne, ?_, hcell, ?_, ?_⟩
  · show (cellAt (h ++ [(cellAt h r).clone]) h.length).fields =
      (cellAt h r).fields
    rw [cellAt_append_len]
    rfl
  · show cellAt ((h ++ [(cellAt h r).clone]).set r _) h.length =
      cellAt (h ++ [(cellAt h r).clone]) h.length
    exact cellAt_set_ne _ _ _ _ (Ne.symm hne)
  · exact congrArg (fun c => innerLogRun c marshal sprintf now level
      format args) hcell

/-- C4 witness: a two-cell heap with one scoped logger; cloning and
mutating both sides at concrete keys. -/
theorem c4_clone_independent_witness :
    (heapClone [⟨⟨"a", "s", "", LOG, []⟩, some [], [],
        [("k0", GoValue.vstr "v0")]⟩] 0).2 ≠ 0 ∧
    (cellAt (heapClone [⟨⟨"a", "s", "", LOG, []⟩, some [], [],
        [("k0", GoValue.vstr "v0")]⟩] 0).1
      (heapClone [⟨⟨"a", "s", "", LOG, []⟩, some [], [],
        [("k0", GoValue.vstr "v0")]⟩] 0).2).fields =
      (cellAt [⟨⟨"a", "s", "", LOG, []⟩, some [], [],
        [("k0", GoValue.vstr "v0")]⟩] 0).fields := by
  have h := c4_clone_independent
    [⟨⟨"a", "s", "", LOG, []⟩, some [], [], [("k0", GoValue.vstr "v0")]⟩]
    0 (by decide) "k1" "k2" (GoValue.vstr "v1") (GoValue.vstr "v2")
    (fun e => Except.ok (dumpEntries e)) (fun f _ => f) "T" LOG "m" []
  exact ⟨h.1, h.2.1⟩

/-! ### Claim C5 -/

/-- C5: `With` on a scoped logger returns the same reference, its field
map afterwards binds the field to the value, and an emission that starts
after the `With` completed renders that binding into its record (for a
field name that is not `caller` nor one of the renderer's fixed keys,
which are overwritten by design). -/
theorem c5_with_visible (h : Heap) (r : Nat) (hr : r < h.length)
    (k : String) (v : GoValue) (callerPath : String)
    (sprintf : String → List GoValue → String) (now : String)
    (level : LogLevelEnum) (format : String) (args : List GoValue)
    (es : Entry)
    (hk : k ∉ (["caller", "timestamp", "level", "app", "scope",
      "message", "uid", "ctx"] : List String))
    (hnd : NodupKeys (cellAt h r).fields) :
    (heapWith h r k v).2 = r ∧
    lookupA (cellAt (heapWith h r k v).1 r).fields k = some v ∧
    (emissionEntry ((cellAt (heapWith h r k v).1 r).withField "caller"
        (callerValue callerPath)) sprintf now level format args =
      some es → lookupA es k = renderFieldValue v) := by
  have hcell : cellAt (heapWith h r k v).1 r =
      (cellAt h r).withField k v := cellAt_set_self h r _ hr
  have h1 : k ≠ "caller" := fun he => hk (he ▸ (by decide :
    ("caller" : String) ∈ ["caller", "timestamp", "level", "app",
      "scope", "message", "uid", "ctx"]))
  refine ⟨rfl, ?_, ?_⟩
  · rw [hcell, withField_fields]
    exact lookupA_insertA_self _ k v
  · intro hp
    obtain ⟨e0, he0, hes⟩ := parser_inv hp
    rw [hcell] at he0
    simp only [InnerLogger.withField] at he0
    have hlk : lookupA (insertA (insertA (cellAt h r).fields k v)
        "caller" (callerValue callerPath)) k = some v := by
      rw [lookupA_insertA_ne _ _ _ _ (Ne.symm h1)]
      exact lookupA_insertA_self _ k v
    have hnd2 : NodupKeys (insertA (insertA (cellAt h r).fields k v)
        "caller" (callerValue callerPath)) :=
      nodupKeys_insertA _ _ _ (nodupKeys_insertA _ _ _ hnd)
    rw [hes,
      finishEntry_other _ _ _ _ _ _ _ _ k
        (fun he => hk (he ▸ (by decide : ("timestamp" : String) ∈
          ["caller", "timestamp", "level", "app", "scope", "message",
            "uid", "ctx"])))
        (fun he => hk (he ▸ (by decide : ("level" : String) ∈
          ["caller", "timestamp", "level", "app", "scope", "message",
            "uid", "ctx"])))
        (fun he => hk (he ▸ (by decide : ("app" : String) ∈
          ["caller", "timestamp", "level", "app", "scope", "message",
            "uid", "ctx"])))
        (fun he => hk (he ▸ (by decide : ("scope" : String) ∈
          ["caller", "timestamp", "level", "app", "scope", "message",
            "uid", "ctx"])))
        (fun he => hk (he ▸ (by decide : ("message" : String) ∈
          ["caller", "timestamp", "level", "app", "scope", "message",
            "uid", "ctx"])))
        (fun he => hk (he ▸ (by decide : ("uid" : String) ∈
          ["caller", "timestamp", "level", "app", "scope", "message",
            "uid", "ctx"])))
        (fun he => hk (he ▸ (by decide : ("ctx" : String) ∈
          ["caller", "timestamp", "level", "app", "scope", "message",
            "uid", "ctx"])))]
    exact buildFields_lookup _ e0 k v hnd2 he0 hlk

/-- C5 witness: adding `userID` to a concrete scoped logger and emitting
renders the field. -/
theorem c5_with_visible_witness :
    (heapWith [⟨⟨"a", "s", "", LOG, []⟩, some [], [], []⟩] 0 "userID"
      (GoValue.vint 123)).2 = 0 ∧
    lookupA (cellAt (heapWith [⟨⟨"a", "s", "", LOG, []⟩, some [], [],
      []⟩] 0 "userID" (GoValue.vint 123)).1 0).fields "userID" =
      some (GoValue.vint 123) := by
  have h := c5_with_visible [⟨⟨"a", "s", "", LOG, []⟩, some [], [], []⟩]
    0 (by decide) "userID" (GoValue.vint 123) "c" (fun f _ => f) "T"
    ERROR "m" []
    [("userID", GoValue.vint 123),
      ("caller", .vobj [("Path", .vstr "c")]), ("timestamp", .vstr "T"),
      ("level", .vstr "ERROR"), ("app", .vstr "a"),
      ("scope", .vstr "s"), ("message", .vstr "m"), ("ctx", .vobj [])]
    (by decide) (by simp [NodupKeys, keysA])
  exact ⟨h.1, h.2.1⟩

/-! ### Claim C6 -/

/-- C6: `WithCtx` replaces the stored context wholesale — setting context
A and then context B leaves the same state as setting B alone — and the
next rendered record's `ctx` entry is exactly the
`ExpectedContextFields` projection of B. -/
theorem c6_withctx_replaces (il : InnerLogger) (A : GoContext)
    (bagB : List (String × GoValue)) (callerPath : String)
    (sprintf : String → List GoValue → String) (now : String)
    (level : LogLevelEnum) (format : String) (args : List GoValue)
    (es : Entry)
    (hp : emissionEntry (((il.withCtx A).withCtx
        (some bagB)).withField "caller" (callerValue callerPath))
      sprintf now level format args = some es) :
    (il.withCtx A).withCtx (some bagB) = il.withCtx (some bagB) ∧
    lookupA es "ctx" =
      some (.vobj (projectCtx il.expectedCtxFields bagB)) := by
  obtain ⟨e0, he0, hes⟩ := parser_inv hp
  refine ⟨rfl, ?_⟩
  rw [hes]
  exact finishEntry_ctx ..

/-- C6 witness: context A carrying `trace-id = A1` is fully displaced by
context B carrying `trace-id = B1`. -/
theorem c6_withctx_replaces_witness :
    lookupA [("caller", GoValue.vobj [("Path", .vstr "c")]),
        ("timestamp", .vstr "T"), ("level", .vstr "ERROR"),
        ("app", .vstr "a"), ("scope", .vstr "s"), ("message", .vstr "m"),
        ("ctx", .vobj [("trace-id", .vstr "B1")])] "ctx" =
      some (.vobj (projectCtx ["trace-id"]
        [("trace-id", GoValue.vstr "B1")])) := by
  have h := c6_withctx_replaces
    ⟨⟨"a", "s", "", LOG, ["trace-id"]⟩, none, ["trace-id"], []⟩
    (some [("trace-id", GoValue.vstr "A1")])
    [("trace-id", GoValue.vstr "B1")] "c" (fun f _ => f) "T" ERROR "m"
    []
    [("caller", GoValue.vobj [("Path", .vstr "c")]),
      ("timestamp", .vstr "T"), ("level", .vstr "ERROR"),
      ("app", .vstr "a"), ("scope", .vstr "s"), ("message", .vstr "m"),
      ("ctx", .vobj [("trace-id", .vstr "B1")])] rfl
  exact h.2

/-! ### Claim C7 -/

/-- C7, counterexample.  The claim states that when an error field
exposes unwrapping, the first unwrapped error's string form appears under
a key distinct from the top-level error string.  Rendering an error
`"outer"` that wraps a plain `errors.errorString` `"inner"` yields a
sub-object holding only `error.string ↦ "outer"`: the unwrapped error's
string `"inner"` appears nowhere (the renderer only walks the chain to
reflect struct fields of the innermost error; it never stores the
unwrapped string — that behaviour exists only in the historical
byte-returning renderer variant in `drivers.go`). -/
theorem c7_counterexample :
    renderFieldValue (.verr (.mk "outer" false false
        (.wraps (.mk "inner" true false .notImplemented [])) [])) =
      some (.vobj [("error.string", GoValue.vstr "outer")]) ∧
    lookupA [("error.string", GoValue.vstr "outer")] "error.unwrap" =
      none :=
  ⟨rfl, rfl⟩

/-- C7 (amended): a nil field value renders as the literal string
`"nil"`; non-error non-nil values pass through as-is; an error value
renders as a sub-object whose `error.string` key holds the error's
string form — exactly that singleton when the fully unwrapped innermost
error is a plain `errors.errorString` or not struct-like, and otherwise
that binding merged with the innermost error's exported struct fields
(no unwrapped error string is ever emitted under a separate key) — and
the renderer panics when the unwrap chain ends in a nil `Unwrap()`. -/
theorem c7_error_render :
    (renderFieldValue GoValue.vnil = some (.vstr "nil")) ∧
    (∀ s, renderFieldValue (GoValue.vstr s) = some (.vstr s)) ∧
    (∀ n, renderFieldValue (GoValue.vint n) = some (.vint n)) ∧
    (∀ bb, renderFieldValue (GoValue.vbool bb) = some (.vbool bb)) ∧
    (∀ entries, renderFieldValue (GoValue.vobj entries) =
      some (.vobj entries)) ∧
    (∀ e inner, walkUnwrap e = some inner →
      ((inner.isErrorString = true ∨ inner.structLike = false) →
        renderFieldValue (.verr e) =
          some (.vobj [("error.string", .vstr e.msg)])) ∧
      (inner.isErrorString = false → inner.structLike = true →
        renderFieldValue (.verr e) = some (.vobj
          (inner.exported.foldl (fun acc p => insertA acc p.1 p.2)
            [("error.string", .vstr e.msg)])) ∧
        ((∀ p ∈ inner.exported, p.1 ≠ "error.string") →
          ∀ es2, renderFieldValue (.verr e) = some (.vobj es2) →
            lookupA es2 "error.string" = some (.vstr e.msg)))) ∧
    (∀ e, walkUnwrap e = none → renderFieldValue (.verr e) = none) := by
  refine ⟨rfl, fun s => rfl, fun n => rfl, fun bb => rfl,
    fun entries => rfl, ?_, ?_⟩
  · intro e inner hw
    constructor
    · intro hcase
      simp only [renderFieldValue, errorInfoRun, hw]
      rcases hcase with hes | hsl
      · rw [if_pos hes]
        rfl
      · by_cases hes : inner.isErrorString = true
        · rw [if_pos hes]
          rfl
        · rw [if_neg hes, if_neg (by rw [hsl]; exact Bool.false_ne_true)]
          rfl
    · intro hes hsl
      have hres : renderFieldValue (.verr e) = some (.vobj
          (inner.exported.foldl (fun acc p => insertA acc p.1 p.2)
            [("error.string", .vstr e.msg)])) := by
        simp only [renderFieldValue, errorInfoRun, hw]
        rw [if_neg (by rw [hes]; exact Bool.false_ne_true), if_pos hsl]
        rfl
      refine ⟨hres, ?_⟩
      intro hex es2 hres2
      rw [hres] at hres2
      simp only [Option.some.injEq, GoValue.vobj.injEq] at hres2
      rw [← hres2,
        lookupA_foldl_insertA_ne inner.exported _ "error.string" hex]
      rfl
  · intro e hw
    simp only [renderFieldValue, errorInfoRun, hw]
    rfl

/-- C7 witness: a struct-like error with one exported field `Code`
renders its string plus the reflected field; nil renders as `"nil"`. -/
theorem c7_error_render_witness :
    renderFieldValue (GoValue.verr (.mk "boom" false true
        .notImplemented [("Code", GoValue.vint 404)])) =
      some (.vobj [("error.string", .vstr "boom"),
        ("Code", .vint 404)]) ∧
    renderFieldValue GoValue.vnil = some (.vstr "nil") := by
  have h := c7_error_render
  have h6 := h.2.2.2.2.2.1
    (.mk "boom" false true .notImplemented [("Code", GoValue.vint 404)])
    (.mk "boom" false true .notImplemented [("Code", GoValue.vint 404)])
    rfl
  have hres := (h6.2 rfl rfl).1
  exact ⟨by rw [hres]; rfl, h.1⟩

/-! ### Claim C8 -/

/-- C8: when marshaling the assembled record fails, the emission writes
exactly the fallback byte sequence
`error marshaling log: <error>; <best-effort-dump>` to the sink and
returns normally — no error escapes the call, for scoped and base
loggers alike. -/
theorem c8_marshal_fallback (il : InnerLogger) (b : BaseLogger)
    (callerPath : String) (marshal : Entry → Except String String)
    (sprintf : String → List GoValue → String) (now : String)
    (level : LogLevelEnum) (format : String) (args : List GoValue)
    (es : Entry) (err : String)
    (hgate : level ≤ il.base.LogLevel)
    (hp : emissionEntry (il.withField "caller" (callerValue callerPath))
      sprintf now level format args = some es)
    (hm : marshal es = Except.error err) :
    (il.logMethod callerPath marshal sprintf now level format args).2 =
      some [fallbackLine err es] ∧
    fallbackLine err es =
      "error marshaling log: " ++ err ++ "; " ++ dumpEntries es ∧
    (∀ err2, level ≤ b.LogLevel →
      marshal (finishEntry now level b.App b.Scope
        (formatMsg sprintf format args) b.UID none []) =
          Except.error err2 →
      b.logMethodB callerPath marshal sprintf now level format args =
        some [fallbackLine err2 (finishEntry now level b.App b.Scope
          (formatMsg sprintf format args) b.UID none [])]) := by
  refine ⟨?_, rfl, ?_⟩
  · rw [logMethod_snd, innerLogRun_eq, withField_base,
      if_neg (not_lt.mpr hgate), hp]
    dsimp only
    rw [hm]
  · intro err2 hgate2 hm2
    unfold BaseLogger.logMethodB baseLogRun
    rw [if_neg (not_lt.mpr hgate2)]
    dsimp only
    rw [parser_fields_none]
    dsimp only
    rw [hm2]

/-- C8 witness: a marshal that always fails makes a concrete scoped
emission write the fallback line. -/
theorem c8_marshal_fallback_witness :
    (InnerLogger.logMethod ⟨⟨"a", "s", "", LOG, []⟩, some [], [], []⟩
        "c" (fun _ => Except.error "boom") (fun f _ => f) "T" ERROR "m"
        []).2 =
      some [fallbackLine "boom"
        [("caller", GoValue.vobj [("Path", .vstr "c")]),
          ("timestamp", .vstr "T"), ("level", .vstr "ERROR"),
          ("app", .vstr "a"), ("scope", .vstr "s"),
          ("message", .vstr "m"), ("ctx", .vobj [])]] := by
  have h := c8_marshal_fallback
    ⟨⟨"a", "s", "", LOG, []⟩, some [], [], []⟩ ⟨"a", "s", "", LOG, []⟩
    "c" (fun _ => Except.error "boom") (fun f _ => f) "T" ERROR "m" []
    [("caller", GoValue.vobj [("Path", .vstr "c")]),
      ("timestamp", .vstr "T"), ("level", .vstr "ERROR"),
      ("app", .vstr "a"), ("scope", .vstr "s"), ("message", .vstr "m"),
      ("ctx", .vobj [])] "boom" (by decide) rfl rfl
  exact h.1

/-! ### Claim C9 -/

/-- C9, counterexample.  The claim states every emitted record carries
the resolved caller path.  A base-logger emission resolves the caller but
`logger.log` ignores its `call` argument and renders with nil fields:
the concrete record below contains no `caller` key (and no caller path
anywhere), even though the emission wrote it to the sink. -/
theorem c9_counterexample :
    defaultJSONParser "T" LOG "app" "scope" "hello" "" none none =
      some [("timestamp", GoValue.vstr "T"), ("level", .vstr "LOG"),
        ("app", .vstr "app"), ("scope", .vstr "scope"),
        ("message", .vstr "hello")] ∧
    lookupA [("timestamp", GoValue.vstr "T"), ("level", .vstr "LOG"),
        ("app", .vstr "app"), ("scope", .vstr "scope"),
        ("message", .vstr "hello")] "caller" = none ∧
    BaseLogger.logMethodB ⟨"app", "scope", "", LOG, []⟩ "pkg.caller"
        (fun e => Except.ok (dumpEntries e)) (fun f _ => f) "T" LOG
        "hello" [] =
      some [dumpEntries [("timestamp", GoValue.vstr "T"),
        ("level", .vstr "LOG"), ("app", .vstr "app"),
        ("scope", .vstr "scope"), ("message", .vstr "hello")] ++ "\n"] :=
  ⟨rfl, rfl, rfl⟩

/-- C9 (amended): a base-logger emission resolves the caller but
discards it — its rendered record never contains a `caller` key; a
scoped-logger emission injects a `caller` field (resolved two hops up)
into its field map before gating (so it is present even when the level
is suppressed), and its rendered record carries the `caller` key with
that value. -/
theorem c9_caller :
    (∀ (b : BaseLogger)
      (sprintf : String → List GoValue → String) (now : String)
      (level : LogLevelEnum) (format : String) (args : List GoValue)
      (es : Entry),
      defaultJSONParser now level b.App b.Scope
        (formatMsg sprintf format args) b.UID none none = some es →
      lookupA es "caller" = none) ∧
    (∀ (il : InnerLogger) (callerPath : String)
      (marshal : Entry → Except String String)
      (sprintf : String → List GoValue → String) (now : String)
      (level : LogLevelEnum) (format : String) (args : List GoValue),
      lookupA ((il.logMethod callerPath marshal sprintf now level format
        args).1).fields "caller" = some (callerValue callerPath)) ∧
    (∀ (il : InnerLogger) (callerPath : String)
      (sprintf : String → List GoValue → String) (now : String)
      (level : LogLevelEnum) (format : String) (args : List GoValue)
      (es : Entry),
      NodupKeys il.fields →
      emissionEntry (il.withField "caller" (callerValue callerPath))
        sprintf now level format args = some es →
      lookupA es "caller" = some (callerValue callerPath)) := by
  refine ⟨?_, ?_, ?_⟩
  · intro b sprintf now level format args es hp
    obtain ⟨e0, he0, hes⟩ := parser_inv hp
    simp only [Option.some.injEq] at he0
    rw [hes, finishEntry_other _ _ _ _ _ _ _ _ "caller" (by decide)
      (by decide) (by decide) (by decide) (by decide) (by decide)
      (by decide), ← he0]
    rfl
  · intro il callerPath marshal sprintf now level format args
    rw [logMethod_fst, withField_fields]
    exact lookupA_insertA_self _ _ _
  · intro il callerPath sprintf now level format args es hnd hp
    obtain ⟨e0, he0, hes⟩ := parser_inv hp
    rw [hes, finishEntry_other _ _ _ _ _ _ _ _ "caller" (by decide)
      (by decide) (by decide) (by decide) (by decide) (by decide)
      (by decide)]
    have hlk : lookupA (insertA il.fields "caller"
        (callerValue callerPath)) "caller" =
        some (callerValue callerPath) := lookupA_insertA_self _ _ _
    rw [buildFields_lookup _ e0 "caller" (callerValue callerPath)
      (nodupKeys_insertA _ _ _ hnd) he0 hlk]
    rfl

/-- C9 witness: a concrete scoped emission carries the injected caller
both in its field map and in its rendered record. -/
theorem c9_caller_witness :
    lookupA ((InnerLogger.logMethod
        ⟨⟨"a", "s", "", LOG, []⟩, some [], [], []⟩ "pkg.fn"
        (fun e => Except.ok (dumpEntries e)) (fun f _ => f) "T" DEBUG
        "m" []).1).fields "caller" =
      some (callerValue "pkg.fn") ∧
    lookupA [("caller", GoValue.vobj [("Path", .vstr "pkg.fn")]),
        ("timestamp", .vstr "T"), ("level", .vstr "ERROR"),
        ("app", .vstr "a"), ("scope", .vstr "s"), ("message", .vstr "m"),
        ("ctx", .vobj [])] "caller" = some (callerValue "pkg.fn") := by
  have h := c9_caller
  refine ⟨h.2.1 ⟨⟨"a", "s", "", LOG, []⟩, some [], [], []⟩ "pkg.fn"
    (fun e => Except.ok (dumpEntries e)) (fun f _ => f) "T" DEBUG "m" [],
    h.2.2 ⟨⟨"a", "s", "", LOG, []⟩, some [], [], []⟩ "pkg.fn"
    (fun f _ => f) "T" ERROR "m" []
    [("caller", GoValue.vobj [("Path", .vstr "pkg.fn")]),
      ("timestamp", .vstr "T"), ("level", .vstr "ERROR"),
      ("app", .vstr "a"), ("scope", .vstr "s"), ("message", .vstr "m"),
      ("ctx", .vobj [])] (by simp [NodupKeys, keysA]) rfl⟩

/-! ### Claim C10 -/

/-- C10: a scoped logger created from a base logger via `With` stores
`context.Background()` — a non-nil context — so every record it renders
before any `WithCtx` call contains a `ctx` key whose value is the
`ExpectedContextFields` projection of the background context, the empty
object, rather than omitting the key. -/
theorem c10_background_ctx (b : BaseLogger) (f : String) (v : GoValue)
    (callerPath : String) (sprintf : String → List GoValue → String)
    (now : String) (level : LogLevelEnum) (format : String)
    (args : List GoValue) (es : Entry)
    (hp : emissionEntry ((b.withField f v).withField "caller"
      (callerValue callerPath)) sprintf now level format args =
      some es) :
    (b.withField f v).Ctx = background ∧
    background ≠ (none : GoContext) ∧
    ctxLogFn (b.withField f v).expectedCtxFields (b.withField f v).Ctx =
      some (.vobj []) ∧
    lookupA es "ctx" = some (.vobj []) := by
  refine ⟨rfl, by simp [background], ?_, ?_⟩
  · show some (GoValue.vobj (projectCtx b.expectedCtxFields [])) =
      some (GoValue.vobj [])
    rw [projectCtx_empty]
  · obtain ⟨e0, he0, hes⟩ := parser_inv hp
    have hctx : ctxLogFn ((b.withField f v).withField "caller"
        (callerValue callerPath)).expectedCtxFields
        ((b.withField f v).withField "caller"
          (callerValue callerPath)).Ctx = some (GoValue.vobj []) := by
      show some (GoValue.vobj (projectCtx b.expectedCtxFields [])) =
        some (GoValue.vobj [])
      rw [projectCtx_empty]
    rw [hes, hctx]
    exact finishEntry_ctx ..

/-- C10 witness: a concrete derived scoped logger renders `ctx` as the
empty object. -/
theorem c10_background_ctx_witness :
    lookupA [("k", GoValue.vstr "x"),
        ("caller", .vobj [("Path", .vstr "c")]), ("timestamp", .vstr "T"),
        ("level", .vstr "ERROR"), ("app", .vstr "a"),
        ("scope", .vstr "s"), ("message", .vstr "m"),
        ("ctx", .vobj [])] "ctx" = some (GoValue.vobj []) := by
  have h := c10_background_ctx ⟨"a", "s", "", LOG, ["trace-id"]⟩ "k"
    (GoValue.vstr "x") "c" (fun f _ => f) "T" ERROR "m" []
    [("k", GoValue.vstr "x"), ("caller", .vobj [("Path", .vstr "c")]),
      ("timestamp", .vstr "T"), ("level", .vstr "ERROR"),
      ("app", .vstr "a"), ("scope", .vstr "s"), ("message", .vstr "m"),
      ("ctx", .vobj [])] rfl
  exact h.2.2.2

end LoggerGo
